import Mathlib

/-!
# Verification of the flex-db storage engine, AOF log and RESP codec

A shallow embedding of the Go sources of flex-db:

* `internal/db/db.go`      — the core key-value store (`Set`, `Get`, `Delete`,
  `Expire`, `TTL`, `All`);
* `internal/db/lists.go`   — list operations (`LPush`, `RPush`, `LPop`, `RPop`,
  `LRange`, `LLen`, `LIndex`, `LSet`, `LRem`, `LTrim`);
* the hash operations file — (`HSet`, `HGet`, `HDel`, ...);
* `internal/db/aof.go`     — AOF append formatting (`LogCommand`) and the
  replay tokenizer (`parseCommandLine`);
* `internal/resp`          — the RESP codec (`Marshal`, `Parse`);
* `internal/protocol/core_commands.go` — the RESP `GET` handler.

Modelling conventions:

* Instants (`time.Time`) and durations (`time.Duration`) are integers;
  `time.Now().After(t)` is the strict comparison `now > t`,
  `time.Now().Add(d)` is `now + d`, `time.Until(t)` is `t - now`.
* Go's `map[string]Value` store is a function `String → Option Value`;
  Go's `map[string]string` hash payload is an association list.
* Go's `Value` carries a `Type` ordinal next to an untyped `Data` payload.
  In every state the code constructs the ordinal agrees with the payload, so
  the pair is embedded as a single inductive `VData`; the source's
  `val.Type != TypeList` checks become matches on the constructor.
* File I/O of the AOF is abstracted to the list of appended records plus a
  watermark `synced` counting how many records have been fsynced.
* The asynchronous deletion that `Get` schedules for an expired key runs on a
  separate goroutine in the source; `Get` itself is embedded as the pure,
  read-only function it is on its own goroutine.
-/

namespace FlexDB

/-- Payload of a stored value: the Go `Value.Data` together with its
`Value.Type` tag (`TypeString` / `TypeList` / `TypeHash`). -/
inductive VData where
  | str (s : String)
  | list (xs : List String)
  | hash (fields : List (String × String))
  deriving DecidableEq, Repr

/-- `Value` from `db.go`: a payload plus the optional absolute expiration
instant (`Expiration *time.Time`). -/
structure Value where
  data : VData
  expiration : Option Int
  deriving DecidableEq, Repr

/-- `AOFSyncPolicy` from `aof.go`. -/
inductive AOFSyncPolicy where
  | always
  | everySecond
  | never
  deriving DecidableEq, Repr

/-- The persistent-log side of `AOFPersistence`: the sequence of appended
records and how many of them have been fsynced to disk. -/
structure AOFState where
  enabled : Bool
  syncPolicy : AOFSyncPolicy
  log : List String
  synced : Nat
  deriving DecidableEq, Repr

/-- `FlexDB` from `db.go`: the data map, the optional AOF handle (`nil` when
AOF is not enabled) and the buffered snapshot signal channel (capacity 100),
abstracted to the number of queued signals. -/
structure DBState where
  data : String → Option Value
  aof : Option AOFState
  writeQueue : Nat

/-- The database constructed by `NewFlexDB` with no options: empty map, no
AOF handle. -/
def emptyDB : DBState :=
  { data := fun _ => none, aof := none, writeQueue := 0 }

/-- `db.data[key] = v` (map assignment). -/
def storeInsert (key : String) (v : Value) (db : DBState) : DBState :=
  { db with data := fun k => if k = key then some v else db.data k }

/-- `delete(db.data, key)`. -/
def storeDelete (key : String) (db : DBState) : DBState :=
  { db with data := fun k => if k = key then none else db.data k }

/-- `val.Expiration != nil && time.Now().After(*val.Expiration)`. -/
def expired (now : Int) (v : Value) : Bool :=
  match v.expiration with
  | some t => now > t
  | none => false

/-- `triggerWrite` from `persistence.go`: non-blocking send on the capacity-100
signal channel; the signal is dropped when the queue is full. -/
def triggerWrite (db : DBState) : DBState :=
  if db.writeQueue < 100 then { db with writeQueue := db.writeQueue + 1 } else db

/-- One argument as `LogCommand` appends it: an argument containing a space is
wrapped in double quotes — but the source writes the command name `cmd`
between the quotes, not the argument. -/
def formatArg (cmd arg : String) : String :=
  if arg.data.contains ' ' then "\"" ++ cmd ++ "\"" else arg

/-- The record text built by `LogCommand` in `aof.go`: the command name, then
each formatted argument with no separator in between, then a newline. -/
def formatCommand (cmd : String) (args : List String) : String :=
  cmd ++ String.join (args.map (formatArg cmd)) ++ "\n"

/-- `LogCommand` from `aof.go`, acting on the embedded AOF state: no-op when
AOF is disabled; otherwise append the formatted record and, under policy
`always`, fsync (the watermark jumps to the end of the log) before
returning. -/
def logCommand (cmd : String) (args : List String) (db : DBState) : DBState :=
  match db.aof with
  | none => db
  | some a =>
    if a.enabled then
      let log := a.log ++ [formatCommand cmd args]
      let synced := if a.syncPolicy = AOFSyncPolicy.always then log.length else a.synced
      { db with aof := some { a with log := log, synced := synced } }
    else db

/-- The list of records appended to the AOF (empty when AOF is disabled). -/
def DBState.aofLog (db : DBState) : List String :=
  match db.aof with
  | some a => a.log
  | none => []

/-- Number of AOF records known to be fsynced. -/
def DBState.aofSynced (db : DBState) : Nat :=
  match db.aof with
  | some a => a.synced
  | none => 0

/-- `db.aof != nil && db.aof.enabled`. -/
def DBState.aofOn (db : DBState) : Bool :=
  match db.aof with
  | some a => a.enabled
  | none => false

/-- The configured sync policy, when an AOF handle exists. -/
def DBState.aofPolicy (db : DBState) : Option AOFSyncPolicy :=
  match db.aof with
  | some a => some a.syncPolicy
  | none => none

/-- `Set` from `db.go`: store the string value with the optional expiration
and signal the snapshot writer.  The source does not log to the AOF here. -/
def Set (key value : String) (expiration : Option Int) (db : DBState) : DBState :=
  triggerWrite (storeInsert key { data := VData.str value, expiration := expiration } db)

/-- `Get` from `db.go`: absent key or expired key → error `"key not found"`;
otherwise return `val.Data`.  (The deletion of an expired key is scheduled on
a separate goroutine in the source and is not part of `Get`'s return path.) -/
def Get (now : Int) (key : String) (db : DBState) : Except String VData :=
  match db.data key with
  | none => Except.error "key not found"
  | some val =>
    if expired now val then Except.error "key not found" else Except.ok val.data

/-- `Delete` from `db.go`. -/
def Delete (key : String) (db : DBState) : Except String Unit × DBState :=
  match db.data key with
  | none => (Except.error "key not found", db)
  | some _ => (Except.ok (), triggerWrite (storeDelete key db))

/-- `Expire` from `db.go`: absent key → error; otherwise install
`now + duration` as the new expiration.  There is no expiration check, and no
AOF logging, in the source. -/
def Expire (now : Int) (key : String) (duration : Int) (db : DBState) :
    Except String Unit × DBState :=
  match db.data key with
  | none => (Except.error "key not found", db)
  | some val =>
    (Except.ok (),
      triggerWrite (storeInsert key { val with expiration := some (now + duration) } db))

/-- `TTL` from `db.go`: absent key → error; no expiration → `-1`; otherwise
`time.Until(*val.Expiration)` — with no check whether that remainder is
already negative. -/
def TTL (now : Int) (key : String) (db : DBState) : Except String Int :=
  match db.data key with
  | none => Except.error "key not found"
  | some val =>
    match val.expiration with
    | none => Except.ok (-1)
    | some t => Except.ok (t - now)

/-- `All` from `db.go`, viewed pointwise: the returned snapshot map contains
`key ↦ val.Data` exactly for the non-expired entries. -/
def All (now : Int) (db : DBState) (key : String) : Option VData :=
  match db.data key with
  | none => none
  | some val => if expired now val then none else some val.data

/-! ## List operations (`internal/db/lists.go`) -/

/-- The prepend loop of `LPush`: `for i := len(values)-1; i >= 0; i--` each
`values[i]` is consed onto the front of the list, so the loop walks the
arguments in reverse order. -/
def lpushPrepend (values list : List String) : List String :=
  values.reverse.foldl (fun acc v => v :: acc) list

/-- Shared tail of a logging list mutation: log the command to the AOF (when
enabled), signal the snapshot writer, return the result. -/
def listMutDone (cmd : String) (args : List String) (n : Nat) (db : DBState) :
    Except String Nat × DBState :=
  (Except.ok n, triggerWrite (logCommand cmd args db))

/-- `LPush` from `lists.go`.  An expired key is deleted and treated as absent;
a fresh key gets a list value with no expiration; an existing list keeps its
expiration.  A non-list value is a type error. -/
def LPush (now : Int) (key : String) (values : List String) (db : DBState) :
    Except String Nat × DBState :=
  match db.data key with
  | some val =>
    if expired now val then
      let list := lpushPrepend values []
      let db2 := storeInsert key { data := VData.list list, expiration := none }
        (storeDelete key db)
      listMutDone "LPUSH" (key :: values) list.length db2
    else
      match val.data with
      | VData.list xs =>
        let list := lpushPrepend values xs
        let db2 := storeInsert key { val with data := VData.list list } db
        listMutDone "LPUSH" (key :: values) list.length db2
      | _ => (Except.error "value is not a list", db)
  | none =>
    let list := lpushPrepend values []
    let db2 := storeInsert key { data := VData.list list, expiration := none } db
    listMutDone "LPUSH" (key :: values) list.length db2

/-- `RPush` from `lists.go`: same structure as `LPush` with
`list = append(list, values...)`. -/
def RPush (now : Int) (key : String) (values : List String) (db : DBState) :
    Except String Nat × DBState :=
  match db.data key with
  | some val =>
    if expired now val then
      let list := values
      let db2 := storeInsert key { data := VData.list list, expiration := none }
        (storeDelete key db)
      listMutDone "RPUSH" (key :: values) list.length db2
    else
      match val.data with
      | VData.list xs =>
        let list := xs ++ values
        let db2 := storeInsert key { val with data := VData.list list } db
        listMutDone "RPUSH" (key :: values) list.length db2
      | _ => (Except.error "value is not a list", db)
  | none =>
    let list := values
    let db2 := storeInsert key { data := VData.list list, expiration := none } db
    listMutDone "RPUSH" (key :: values) list.length db2

/-- `LPop` from `lists.go`: pop the head; delete the key when the list becomes
empty; log and signal on success. -/
def LPop (now : Int) (key : String) (db : DBState) : Except String String × DBState :=
  match db.data key with
  | none => (Except.error "key not found", db)
  | some val =>
    if expired now val then (Except.error "key not found", storeDelete key db)
    else
      match val.data with
      | VData.list xs =>
        match xs with
        | [] => (Except.error "list is empty", db)
        | item :: rest =>
          let db2 :=
            if rest.isEmpty then storeDelete key db
            else storeInsert key { val with data := VData.list rest } db
          (Except.ok item, triggerWrite (logCommand "LPOP" [key] db2))
      | _ => (Except.error "value is not a list", db)

/-- `RPop` from `lists.go`: pop `list[len-1]`; delete the key when the list
becomes empty. -/
def RPop (now : Int) (key : String) (db : DBState) : Except String String × DBState :=
  match db.data key with
  | none => (Except.error "key not found", db)
  | some val =>
    if expired now val then (Except.error "key not found", storeDelete key db)
    else
      match val.data with
      | VData.list xs =>
        if xs.isEmpty then (Except.error "list is empty", db)
        else
          let item := xs.getLastD ""
          let rest := xs.dropLast
          let db2 :=
            if rest.isEmpty then storeDelete key db
            else storeInsert key { val with data := VData.list rest } db
          (Except.ok item, triggerWrite (logCommand "RPOP" [key] db2))
      | _ => (Except.error "value is not a list", db)

/-- The index arithmetic shared by `LRange` and `LTrim`: adjust negative
indices by the length, then clamp `start` below by `0` and `stop` above by
`len-1`. -/
def clampBounds (len start stop : Int) : Int × Int :=
  let start1 := if start < 0 then len + start else start
  let stop1 := if stop < 0 then len + stop else stop
  (if start1 < 0 then 0 else start1, if stop1 ≥ len then len - 1 else stop1)

/-- The slice computed by `LRange`: empty for an empty range, otherwise the
inclusive slice `list[start : stop+1]` of the clamped bounds. -/
def lrangeSlice (xs : List String) (start stop : Int) : List String :=
  let b := clampBounds (xs.length : Int) start stop
  if b.1 > b.2 ∨ b.1 ≥ (xs.length : Int) then []
  else (xs.drop b.1.toNat).take (b.2 - b.1 + 1).toNat

/-- `LRange` from `lists.go`: absent or expired key → empty list (read-only);
non-list → type error. -/
def LRange (now : Int) (key : String) (start stop : Int) (db : DBState) :
    Except String (List String) :=
  match db.data key with
  | none => Except.ok []
  | some val =>
    if expired now val then Except.ok []
    else
      match val.data with
      | VData.list xs => Except.ok (lrangeSlice xs start stop)
      | _ => Except.error "value is not a list"

/-- `LLen` from `lists.go`. -/
def LLen (now : Int) (key : String) (db : DBState) : Except String Nat :=
  match db.data key with
  | none => Except.ok 0
  | some val =>
    if expired now val then Except.ok 0
    else
      match val.data with
      | VData.list xs => Except.ok xs.length
      | _ => Except.error "value is not a list"

/-- `LIndex` from `lists.go`: negative index counts from the tail; out of
bounds is an error. -/
def LIndex (now : Int) (key : String) (index : Int) (db : DBState) :
    Except String String :=
  match db.data key with
  | none => Except.error "key not found"
  | some val =>
    if expired now val then Except.error "key not found"
    else
      match val.data with
      | VData.list xs =>
        let len : Int := xs.length
        let i := if index < 0 then len + index else index
        if i < 0 ∨ i ≥ len then Except.error "index out of range"
        else Except.ok (xs.getD i.toNat "")
      | _ => Except.error "value is not a list"

/-- `LSet` from `lists.go`. -/
def LSet (now : Int) (key : String) (index : Int) (value : String) (db : DBState) :
    Except String Unit × DBState :=
  match db.data key with
  | none => (Except.error "key not found", db)
  | some val =>
    if expired now val then (Except.error "key not found", db)
    else
      match val.data with
      | VData.list xs =>
        let len : Int := xs.length
        let i := if index < 0 then len + index else index
        if i < 0 ∨ i ≥ len then (Except.error "index out of range", db)
        else
          let db2 := storeInsert key { val with data := VData.list (xs.set i.toNat value) } db
          (Except.ok (),
            triggerWrite (logCommand "LSET" [key, toString i, value] db2))
      | _ => (Except.error "value is not a list", db)

/-- The removal loop of `LRem`, scanning the list front to back.  The loop
condition `count == 0 || removed < count` is `unlimited ∨ removed < cap`; a
match is deleted in place (the index stays, i.e. the scan continues with the
rest), a non-match keeps its place and the index advances. -/
def lremScan (value : String) (unlimited : Bool) (cap : Int) :
    List String → Nat → List String × Nat
  | [], removed => ([], removed)
  | x :: xs, removed =>
    if unlimited ∨ (removed : Int) < cap then
      if x = value then lremScan value unlimited cap xs (removed + 1)
      else
        let r := lremScan value unlimited cap xs removed
        (x :: r.1, r.2)
    else (x :: xs, removed)

/-- The two scan directions of `LRem`.  For `count ≥ 0` the source scans head
to tail (`count == 0` makes the budget unlimited).  For `count < 0` it scans
from `i = len-1` down to `0`; deleting `list[i]` leaves the elements below `i`
untouched, so the downward index loop visits each original element once from
last to first — rendered here as a head scan of the reversed list. -/
def lremList (count : Int) (value : String) (xs : List String) : List String × Nat :=
  if count ≥ 0 then lremScan value (count = 0) count xs 0
  else
    let r := lremScan value false (-count) xs.reverse 0
    (r.1.reverse, r.2)

/-- `LRem` from `lists.go`: absent or expired key → removed 0 (read-only);
the key is deleted when the remaining list is empty; AOF log and snapshot
signal only when something was removed. -/
def LRem (now : Int) (key : String) (count : Int) (value : String) (db : DBState) :
    Except String Nat × DBState :=
  match db.data key with
  | none => (Except.ok 0, db)
  | some val =>
    if expired now val then (Except.ok 0, db)
    else
      match val.data with
      | VData.list xs =>
        let r := lremList count value xs
        let db2 :=
          if r.1.isEmpty then storeDelete key db
          else storeInsert key { val with data := VData.list r.1 } db
        let db3 :=
          if r.2 > 0 then triggerWrite (logCommand "LREM" [key, toString count, value] db2)
          else db2
        (Except.ok r.2, db3)
      | _ => (Except.error "value is not a list", db)

/-- `LTrim` from `lists.go`: same index arithmetic as `LRange`; an empty
resulting range deletes the key; the clamped bounds are what gets logged. -/
def LTrim (now : Int) (key : String) (start stop : Int) (db : DBState) :
    Except String Unit × DBState :=
  match db.data key with
  | none => (Except.ok (), db)
  | some val =>
    if expired now val then (Except.ok (), storeDelete key db)
    else
      match val.data with
      | VData.list xs =>
        let b := clampBounds (xs.length : Int) start stop
        let db2 :=
          if b.1 > b.2 ∨ b.1 ≥ (xs.length : Int) then storeDelete key db
          else
            storeInsert key
              { val with data := VData.list ((xs.drop b.1.toNat).take (b.2 - b.1 + 1).toNat) } db
        (Except.ok (),
          triggerWrite (logCommand "LTRIM" [key, toString b.1, toString b.2] db2))
      | _ => (Except.error "value is not a list", db)

/-! ## Hash operations -/

/-- Lookup in the `map[string]string` payload. -/
def hashGet (m : List (String × String)) (field : String) : Option String :=
  (m.find? (fun p => p.1 == field)).map (fun p => p.2)

/-- `hashMap[field] = value`: update in place when present, append otherwise. -/
def hashPut (m : List (String × String)) (field value : String) :
    List (String × String) :=
  if (m.find? (fun p => p.1 == field)).isSome then
    m.map (fun p => if p.1 == field then (p.1, value) else p)
  else m ++ [(field, value)]

/-- `delete(hashMap, field)`. -/
def hashDrop (m : List (String × String)) (field : String) :
    List (String × String) :=
  m.filter (fun p => !(p.1 == field))

/-- `HSet`: returns 1 when the field is new, 0 when it was updated;
an expired key is deleted and treated as absent. -/
def HSet (now : Int) (key field value : String) (db : DBState) :
    Except String Nat × DBState :=
  match db.data key with
  | some val =>
    if expired now val then
      let m := hashPut [] field value
      let db2 := storeInsert key { data := VData.hash m, expiration := none }
        (storeDelete key db)
      (Except.ok 1, triggerWrite (logCommand "HSET" [key, field, value] db2))
    else
      match val.data with
      | VData.hash m =>
        let fieldExists := (hashGet m field).isSome
        let db2 := storeInsert key { val with data := VData.hash (hashPut m field value) } db
        let db3 := triggerWrite (logCommand "HSET" [key, field, value] db2)
        (Except.ok (if fieldExists then 0 else 1), db3)
      | _ => (Except.error "value is not a hash", db)
  | none =>
    let m := hashPut [] field value
    let db2 := storeInsert key { data := VData.hash m, expiration := none } db
    (Except.ok 1, triggerWrite (logCommand "HSET" [key, field, value] db2))

/-- `HGet`: absent or expired key, or missing field, is an error. -/
def HGet (now : Int) (key field : String) (db : DBState) : Except String String :=
  match db.data key with
  | none => Except.error "key not found"
  | some val =>
    if expired now val then Except.error "key not found"
    else
      match val.data with
      | VData.hash m =>
        match hashGet m field with
        | none => Except.error "field not found"
        | some v => Except.ok v
      | _ => Except.error "value is not a hash"

/-- The deletion loop of `HDel` over the requested fields, counting the
fields that were present. -/
def hdelLoop (fields : List String) (m : List (String × String)) (deleted : Nat) :
    List (String × String) × Nat :=
  match fields with
  | [] => (m, deleted)
  | f :: fs =>
    if (hashGet m f).isSome then hdelLoop fs (hashDrop m f) (deleted + 1)
    else hdelLoop fs m deleted

/-- `HDel`: absent or expired key → deleted 0 (read-only); the key is deleted
when the hash becomes empty; AOF log and snapshot signal only when at least
one field was removed. -/
def HDel (now : Int) (key : String) (fields : List String) (db : DBState) :
    Except String Nat × DBState :=
  match db.data key with
  | none => (Except.ok 0, db)
  | some val =>
    if expired now val then (Except.ok 0, db)
    else
      match val.data with
      | VData.hash m =>
        let r := hdelLoop fields m 0
        let db2 :=
          if r.1.isEmpty then storeDelete key db
          else storeInsert key { val with data := VData.hash r.1 } db
        let db3 :=
          if r.2 > 0 then triggerWrite (logCommand "HDEL" (key :: fields) db2)
          else db2
        (Except.ok r.2, db3)
      | _ => (Except.error "value is not a hash", db)

/-- `HGetAll`: absent or expired key gives the empty map; otherwise a copy of
the hash (the Go map's iteration order is unspecified; the embedding returns
the association list itself). -/
def HGetAll (now : Int) (key : String) (db : DBState) :
    Except String (List (String × String)) :=
  match db.data key with
  | none => Except.ok []
  | some val =>
    if expired now val then Except.ok []
    else
      match val.data with
      | VData.hash m => Except.ok m
      | _ => Except.error "value is not a hash"

/-- `HExists`: absent or expired key gives `false`. -/
def HExists (now : Int) (key field : String) (db : DBState) : Except String Bool :=
  match db.data key with
  | none => Except.ok false
  | some val =>
    if expired now val then Except.ok false
    else
      match val.data with
      | VData.hash m => Except.ok (hashGet m field).isSome
      | _ => Except.error "value is not a hash"

/-- `HLen`: absent or expired key gives `0`. -/
def HLen (now : Int) (key : String) (db : DBState) : Except String Nat :=
  match db.data key with
  | none => Except.ok 0
  | some val =>
    if expired now val then Except.ok 0
    else
      match val.data with
      | VData.hash m => Except.ok m.length
      | _ => Except.error "value is not a hash"

/-- `HKeys`: absent or expired key gives the empty slice; otherwise the field
names (in the embedding's association order). -/
def HKeys (now : Int) (key : String) (db : DBState) : Except String (List String) :=
  match db.data key with
  | none => Except.ok []
  | some val =>
    if expired now val then Except.ok []
    else
      match val.data with
      | VData.hash m => Except.ok (m.map (fun p => p.1))
      | _ => Except.error "value is not a hash"

/-- `HVals`: absent or expired key gives the empty slice; otherwise the field
values. -/
def HVals (now : Int) (key : String) (db : DBState) : Except String (List String) :=
  match db.data key with
  | none => Except.ok []
  | some val =>
    if expired now val then Except.ok []
    else
      match val.data with
      | VData.hash m => Except.ok (m.map (fun p => p.2))
      | _ => Except.error "value is not a hash"

/-! ## The AOF replay tokenizer (`parseCommandLine` in `aof.go`) -/

/-- The loop state of `parseCommandLine`: the tokens emitted so far, the
`strings.Builder` accumulating the current token, and the inside-quotes
flag. -/
structure TokState where
  parts : List String
  current : List Char
  inQuotes : Bool
  deriving Repr

/-- One iteration of the character loop: `"` toggles the quote state (and is
not emitted); a space outside quotes flushes the current token when it is
non-empty; every other character is appended to the current token. -/
def tokStep (st : TokState) (c : Char) : TokState :=
  if c = '"' then { st with inQuotes := !st.inQuotes }
  else if c = ' ' ∧ !st.inQuotes then
    if st.current.isEmpty then st
    else { parts := st.parts ++ [String.mk st.current], current := [], inQuotes := st.inQuotes }
  else { st with current := st.current ++ [c] }

/-- `parseCommandLine` from `aof.go`: run the loop over the line, flush the
trailing token, and fail when the line ends inside quotes. -/
def parseCommandLine (line : String) : Except String (List String) :=
  let st := line.data.foldl tokStep { parts := [], current := [], inQuotes := false }
  let parts := if st.current.isEmpty then st.parts else st.parts ++ [String.mk st.current]
  if st.inQuotes then Except.error "unclosed quotes in command"
  else Except.ok parts

end FlexDB

namespace Resp

/-! ## The RESP codec (`internal/resp`, file `resp.go`)

The Go `Value` struct carries a tag byte, a string, an integer, a child array
and a `Null` flag; the well-formed combinations the constructors
(`NewSimpleString`, `NewError`, `NewInteger`, `NewBulkString`,
`NewNullBulkString`, `NewArray`, `NewNullArray`) produce are embedded as one
inductive. -/

inductive RValue where
  | simpleString (s : String)
  | error (s : String)
  | integer (n : Int)
  | bulkString (s : String)
  | nullBulkString
  | array (items : List RValue)
  | nullArray

/-- `Marshal` from `resp.go`, byte for byte.  Note the source's `Error` and
`Integer` cases both emit a `+` tag, and the non-null `Array` case returns
only the `*<len>` header — the elements are never appended. -/
def Marshal : RValue → String
  | RValue.simpleString s => "+" ++ s ++ "\r\n"
  | RValue.error s => "+" ++ s ++ "\r\n"
  | RValue.integer n => "+" ++ toString n ++ "\r\n"
  | RValue.bulkString s => "$" ++ toString s.length ++ "\r\n" ++ s ++ "\r\n"
  | RValue.nullBulkString => "$-1\r\n"
  | RValue.array items => "*" ++ toString items.length ++ "\r\n"
  | RValue.nullArray => "*-1\r\n"

/-- The two failure modes of the decoder: an I/O error (`EOF`) from the
underlying reader, and `ErrInvalidSyntax`. -/
inductive ParseErr where
  | eof
  | invalidSyntax
  deriving DecidableEq, Repr

/-- `reader.ReadString('\n')`: everything up to and including the first
newline, or `none` at EOF. -/
def takeThroughNL : List Char → Option (List Char × List Char)
  | [] => none
  | c :: cs =>
    if c = '\n' then some ([c], cs)
    else
      match takeThroughNL cs with
      | none => none
      | some r => some (c :: r.1, r.2)

/-- `readLine` from `resp.go`: read a line, require it to end in `\r\n`, and
strip that terminator. -/
def readLine (cs : List Char) : Except ParseErr (String × List Char) :=
  match takeThroughNL cs with
  | none => Except.error ParseErr.eof
  | some (l, rest) =>
    match l.reverse with
    | _ :: '\r' :: body => Except.ok (String.mk body.reverse, rest)
    | _ => Except.error ParseErr.invalidSyntax

/-- Decimal digits of `strconv`. -/
def digitsToNat : List Char → Option Nat
  | [] => none
  | cs =>
    cs.foldl (fun acc c =>
      match acc with
      | none => none
      | some n => if c.isDigit then some (n * 10 + (c.toNat - 48)) else none)
      (some 0)

/-- `strconv.ParseInt`/`strconv.Atoi` on a line: optional sign, then decimal
digits.  (64-bit overflow is not modelled; the inputs of interest are small.) -/
def parseIntStr (s : String) : Option Int :=
  match s.data with
  | '-' :: rest => (digitsToNat rest).map (fun n => -(n : Int))
  | '+' :: rest => (digitsToNat rest).map (fun n => (n : Int))
  | cs => (digitsToNat cs).map (fun n => (n : Int))

/-- `parseSimpleString` (also used by `parseError` — both return the line). -/
def parseSimpleLine (tag : String → RValue) (cs : List Char) :
    Except ParseErr (RValue × List Char) :=
  match readLine cs with
  | Except.error e => Except.error e
  | Except.ok (line, rest) => Except.ok (tag line, rest)

/-- `parseInteger`. -/
def parseIntegerBody (cs : List Char) : Except ParseErr (RValue × List Char) :=
  match readLine cs with
  | Except.error e => Except.error e
  | Except.ok (line, rest) =>
    match parseIntStr line with
    | none => Except.error ParseErr.invalidSyntax
    | some n => Except.ok (RValue.integer n, rest)

/-- `parseBulkString`: length line, then exactly `length` bytes, then two more
bytes (the source reads them without checking that they are `\r\n`). -/
def parseBulkBody (cs : List Char) : Except ParseErr (RValue × List Char) :=
  match readLine cs with
  | Except.error e => Except.error e
  | Except.ok (line, rest) =>
    match parseIntStr line with
    | none => Except.error ParseErr.invalidSyntax
    | some len =>
      if len = -1 then Except.ok (RValue.nullBulkString, rest)
      else if len < 0 then Except.error ParseErr.invalidSyntax
      else
        let n := len.toNat
        if rest.length < n + 2 then Except.error ParseErr.eof
        else Except.ok (RValue.bulkString (String.mk (rest.take n)), rest.drop (n + 2))

mutual

/-- `Parse` from `resp.go`: dispatch on the tag byte; an unknown tag is
unread and the input parsed as a simple string.  The fuel argument bounds the
recursion depth through arrays; with fuel at least the size of the input it
never runs out. -/
def Parse : Nat → List Char → Except ParseErr (RValue × List Char)
  | 0, _ => Except.error ParseErr.invalidSyntax
  | Nat.succ fuel, input =>
    match input with
    | [] => Except.error ParseErr.eof
    | b :: rest =>
      if b = '+' then parseSimpleLine RValue.simpleString rest
      else if b = '-' then parseSimpleLine RValue.error rest
      else if b = ':' then parseIntegerBody rest
      else if b = '$' then parseBulkBody rest
      else if b = '*' then
        match readLine rest with
        | Except.error e => Except.error e
        | Except.ok (line, rest2) =>
          match parseIntStr line with
          | none => Except.error ParseErr.invalidSyntax
          | some count =>
            if count = -1 then Except.ok (RValue.nullArray, rest2)
            else if count < 0 then Except.error ParseErr.invalidSyntax
            else
              match parseElems fuel count.toNat rest2 with
              | Except.error e => Except.error e
              | Except.ok (items, rest3) => Except.ok (RValue.array items, rest3)
      else parseSimpleLine RValue.simpleString input

/-- The element loop of `parseArray`. -/
def parseElems : Nat → Nat → List Char → Except ParseErr (List RValue × List Char)
  | _, 0, input => Except.ok ([], input)
  | 0, Nat.succ _, _ => Except.error ParseErr.invalidSyntax
  | Nat.succ fuel, Nat.succ k, input =>
    match Parse fuel input with
    | Except.error e => Except.error e
    | Except.ok (v, rest) =>
      match parseElems fuel k rest with
      | Except.error e => Except.error e
      | Except.ok (vs, rest2) => Except.ok (v :: vs, rest2)

end

end Resp

namespace FlexDB

/-! ## The RESP `GET` handler (`core_commands.go`) -/

/-- `args[i].Str` — the `Str` field of the Go `resp.Value` struct, which is
empty for the purely numeric constructors. -/
def rvStr : Resp.RValue → String
  | Resp.RValue.simpleString s => s
  | Resp.RValue.error s => s
  | Resp.RValue.bulkString s => s
  | _ => ""

/-- `fmt.Sprintf("%v", val)` on the payload returned by `Get` (Go renders a
string as itself; a slice as its space-joined bracketed form; a map in its
`map[...]` form). -/
def formatVData : VData → String
  | VData.str s => s
  | VData.list xs => "[" ++ String.intercalate " " xs ++ "]"
  | VData.hash m =>
      "map[" ++ String.intercalate " " (m.map (fun p => p.1 ++ ":" ++ p.2)) ++ "]"

/-- `getCommand` from `core_commands.go`: arity check, then `Get`; an error
from the store (key absent or expired) is returned as a RESP Error reply via
`resp.NewError(err.Error())`, a hit as a bulk string. -/
def getCommand (now : Int) (db : DBState) (args : List Resp.RValue) : Resp.RValue :=
  match args with
  | [] => Resp.RValue.error "ERR key is required to access the data"
  | a :: _ =>
    match Get now (rvStr a) db with
    | Except.error e => Resp.RValue.error e
    | Except.ok v => Resp.RValue.bulkString (formatVData v)

/-! ## Concrete states used by witnesses and counterexamples -/

/-- A store holding one string key `"k"` whose expiration instant `5` lies in
the past at observation time `10`. -/
def dbExpired : DBState :=
  { data := fun k =>
      if k = "k" then some { data := VData.str "v", expiration := some 5 } else none,
    aof := none, writeQueue := 0 }

/-- An empty store with AOF enabled under policy `always`. -/
def dbAof : DBState :=
  { data := fun _ => none,
    aof := some { enabled := true, syncPolicy := AOFSyncPolicy.always, log := [], synced := 0 },
    writeQueue := 0 }

/-- A store holding one list key `"k" ↦ ["a"]`. -/
def dbListK : DBState :=
  { data := fun k =>
      if k = "k" then some { data := VData.list ["a"], expiration := none } else none,
    aof := none, writeQueue := 0 }

/-! ## Plumbing lemmas -/

theorem triggerWrite_data (db : DBState) : (triggerWrite db).data = db.data := by
  unfold triggerWrite
  split <;> rfl

theorem logCommand_data (cmd : String) (args : List String) (db : DBState) :
    (logCommand cmd args db).data = db.data := by
  unfold logCommand
  rcases db.aof with _ | a
  · rfl
  · dsimp only
    split <;> rfl

theorem storeInsert_data_self (key : String) (v : Value) (db : DBState) :
    (storeInsert key v db).data key = some v := by
  simp [storeInsert]

theorem storeDelete_data_self (key : String) (db : DBState) :
    (storeDelete key db).data key = none := by
  simp [storeDelete]

theorem triggerWrite_aof (db : DBState) : (triggerWrite db).aof = db.aof := by
  unfold triggerWrite
  split <;> rfl

theorem triggerWrite_aofLog (db : DBState) : (triggerWrite db).aofLog = db.aofLog := by
  unfold DBState.aofLog
  rw [triggerWrite_aof]

theorem triggerWrite_aofSynced (db : DBState) :
    (triggerWrite db).aofSynced = db.aofSynced := by
  unfold DBState.aofSynced
  rw [triggerWrite_aof]

theorem storeInsert_aof (key : String) (v : Value) (db : DBState) :
    (storeInsert key v db).aof = db.aof := rfl

theorem storeDelete_aof (key : String) (db : DBState) :
    (storeDelete key db).aof = db.aof := rfl

theorem storeInsert_aofLog (key : String) (v : Value) (db : DBState) :
    (storeInsert key v db).aofLog = db.aofLog := rfl

theorem storeDelete_aofLog (key : String) (db : DBState) :
    (storeDelete key db).aofLog = db.aofLog := rfl

theorem logCommand_aofLog_of_on (cmd : String) (args : List String) (db : DBState)
    (h : db.aofOn = true) :
    (logCommand cmd args db).aofLog = db.aofLog ++ [formatCommand cmd args] := by
  rcases ha : db.aof with _ | a
  · simp [DBState.aofOn, ha] at h
  · have hen : a.enabled = true := by simpa [DBState.aofOn, ha] using h
    simp [logCommand, DBState.aofLog, ha, hen]

theorem logCommand_synced_always (cmd : String) (args : List String) (db : DBState)
    (hon : db.aofOn = true) (hpol : db.aofPolicy = some AOFSyncPolicy.always) :
    (logCommand cmd args db).aofSynced = (logCommand cmd args db).aofLog.length := by
  rcases ha : db.aof with _ | a
  · simp [DBState.aofOn, ha] at hon
  · have hen : a.enabled = true := by simpa [DBState.aofOn, ha] using hon
    have hp : a.syncPolicy = AOFSyncPolicy.always := by
      simpa [DBState.aofPolicy, ha] using hpol
    simp [logCommand, DBState.aofLog, DBState.aofSynced, ha, hen, hp]

theorem lpushPrepend_eq_append (values list : List String) :
    lpushPrepend values list = values ++ list := by
  unfold lpushPrepend
  suffices h : ∀ (ys acc : List String), ys.foldl (fun a v => v :: a) acc = ys.reverse ++ acc by
    rw [h, List.reverse_reverse]
  intro ys
  induction ys with
  | nil => intro acc; rfl
  | cons y ys ih =>
    intro acc
    simp only [List.foldl_cons, ih, List.reverse_cons, List.append_assoc, List.cons_append,
      List.nil_append]

theorem lrangeSlice_full (xs : List String) : lrangeSlice xs 0 (-1) = xs := by
  rcases xs with _ | ⟨x, rest⟩
  · rfl
  · unfold lrangeSlice clampBounds
    norm_num

theorem storeInsert_aofOn (key : String) (v : Value) (db : DBState) :
    (storeInsert key v db).aofOn = db.aofOn := rfl

theorem storeDelete_aofOn (key : String) (db : DBState) :
    (storeDelete key db).aofOn = db.aofOn := rfl

theorem expired_set_data (now : Int) (val : Value) (x : VData) :
    expired now { val with data := x } = expired now val := rfl

theorem listMutDone_aofLog (cmd : String) (args : List String) (n : Nat) (db2 : DBState)
    (hon : db2.aofOn = true) :
    ((listMutDone cmd args n db2).2).aofLog = db2.aofLog ++ [formatCommand cmd args] := by
  unfold listMutDone
  rw [triggerWrite_aofLog, logCommand_aofLog_of_on _ _ _ hon]

theorem listMutDone_synced_always (cmd : String) (args : List String) (n : Nat)
    (db2 : DBState) (hon : db2.aofOn = true)
    (hpol : db2.aofPolicy = some AOFSyncPolicy.always) :
    ((listMutDone cmd args n db2).2).aofSynced =
      ((listMutDone cmd args n db2).2).aofLog.length := by
  unfold listMutDone
  rw [triggerWrite_aofSynced, triggerWrite_aofLog]
  exact logCommand_synced_always _ _ _ hon hpol

/-! ## Claim C1 — AOF logging of mutations -/

/-- C1 (counterexample): with AOF enabled under policy `always`, a successful
`Set` stores the value but appends nothing to the AOF log — `Set`, `Delete`
and `Expire` in `db.go` never call `LogCommand`, so the claim that every
successful mutating store operation records its logical command is false. -/
theorem set_not_logged_counterexample :
    (Set "k" "v" none dbAof).data "k" =
      some { data := VData.str "v", expiration := none } ∧
    (Set "k" "v" none dbAof).aofLog = [] := by
  exact ⟨rfl, rfl⟩

/-- The logical command `cmd args` was appended as exactly one new AOF
record, and under policy `always` it is fsynced (the watermark covers the
whole log) before the operation returns. -/
def logsExactly (db st : DBState) (cmd : String) (args : List String) : Prop :=
  st.aofLog = db.aofLog ++ [formatCommand cmd args] ∧
  (db.aofPolicy = some AOFSyncPolicy.always → st.aofSynced = st.aofLog.length)

theorem aofLog_of_aof_eq (db db2 : DBState) (h : db2.aof = db.aof) :
    db2.aofLog = db.aofLog := by
  unfold DBState.aofLog
  rw [h]

theorem aofOn_of_aof_eq (db db2 : DBState) (h : db2.aof = db.aof) :
    db2.aofOn = db.aofOn := by
  unfold DBState.aofOn
  rw [h]

theorem aofPolicy_of_aof_eq (db db2 : DBState) (h : db2.aof = db.aof) :
    db2.aofPolicy = db.aofPolicy := by
  unfold DBState.aofPolicy
  rw [h]

theorem logsExactly_wrap (db db2 : DBState) (cmd : String) (args : List String)
    (hA : db2.aof = db.aof) (hon : db.aofOn = true) :
    logsExactly db (triggerWrite (logCommand cmd args db2)) cmd args := by
  have hon2 : db2.aofOn = true := by
    rw [aofOn_of_aof_eq db db2 hA]
    exact hon
  constructor
  · rw [triggerWrite_aofLog, logCommand_aofLog_of_on _ _ _ hon2,
      aofLog_of_aof_eq db db2 hA]
  · intro hpol
    have hpol2 : db2.aofPolicy = some AOFSyncPolicy.always := by
      rw [aofPolicy_of_aof_eq db db2 hA]
      exact hpol
    rw [triggerWrite_aofSynced, triggerWrite_aofLog]
    exact logCommand_synced_always _ _ _ hon2 hpol2

/-- C1 (amended): every list and hash mutation that actually changes the
store — `lpush`, `rpush`, a successful `lpop`, `rpop` or `lset`, `ltrim` on a
live list, `hset`, and `lrem`/`hdel` when at least one element was removed —
records its logical command to the AOF before returning, and under policy
`always` that record is fsynced before the operation returns; `set`, `del`
and `expire` record nothing at all. -/
theorem aof_logging_amended (now : Int) (key value field fval : String)
    (exp : Option Int) (d index count start stop : Int)
    (values fields : List String) (db : DBState) :
    (Set key value exp db).aofLog = db.aofLog ∧
    ((Delete key db).2).aofLog = db.aofLog ∧
    ((Expire now key d db).2).aofLog = db.aofLog ∧
    (db.aofOn = true → ∀ n, (LPush now key values db).1 = Except.ok n →
      logsExactly db (LPush now key values db).2 "LPUSH" (key :: values)) ∧
    (db.aofOn = true → ∀ n, (RPush now key values db).1 = Except.ok n →
      logsExactly db (RPush now key values db).2 "RPUSH" (key :: values)) ∧
    (db.aofOn = true → ∀ s, (LPop now key db).1 = Except.ok s →
      logsExactly db (LPop now key db).2 "LPOP" [key]) ∧
    (db.aofOn = true → ∀ s, (RPop now key db).1 = Except.ok s →
      logsExactly db (RPop now key db).2 "RPOP" [key]) ∧
    (db.aofOn = true → ∀ val xs, db.data key = some val →
      expired now val = false → val.data = VData.list xs →
      (LSet now key index value db).1 = Except.ok () →
      logsExactly db (LSet now key index value db).2 "LSET"
        [key, toString (if index < 0 then ((xs.length : Int) + index) else index), value]) ∧
    (db.aofOn = true → ∀ n, (LRem now key count value db).1 = Except.ok n → 0 < n →
      logsExactly db (LRem now key count value db).2 "LREM"
        [key, toString count, value]) ∧
    (db.aofOn = true → ∀ val xs, db.data key = some val →
      expired now val = false → val.data = VData.list xs →
      logsExactly db (LTrim now key start stop db).2 "LTRIM"
        [key, toString (clampBounds (xs.length : Int) start stop).1,
          toString (clampBounds (xs.length : Int) start stop).2]) ∧
    (db.aofOn = true → ∀ n, (HSet now key field fval db).1 = Except.ok n →
      logsExactly db (HSet now key field fval db).2 "HSET" [key, field, fval]) ∧
    (db.aofOn = true → ∀ n, (HDel now key fields db).1 = Except.ok n → 0 < n →
      logsExactly db (HDel now key fields db).2 "HDEL" (key :: fields)) := by
  refine ⟨?_, ?_, ?_, ?_, ?_, ?_, ?_, ?_, ?_, ?_, ?_, ?_⟩
  · simp [Set, triggerWrite_aofLog, storeInsert_aofLog]
  · rcases h : db.data key with _ | val <;>
      simp [Delete, h, triggerWrite_aofLog, storeDelete_aofLog]
  · rcases h : db.data key with _ | val <;>
      simp [Expire, h, triggerWrite_aofLog, storeInsert_aofLog]
  · intro hon n _hok
    rcases h : db.data key with _ | val
    · simp only [LPush, h]
      exact logsExactly_wrap db _ _ _ rfl hon
    · by_cases hexp : expired now val = true
      · simp only [LPush, h, hexp, if_true]
        exact logsExactly_wrap db _ _ _ rfl hon
      · rcases hd : val.data with s2 | xs | m
        · simp [LPush, h, hexp, hd] at _hok
        · simp only [LPush, h]
          rw [if_neg hexp]
          simp only [hd]
          exact logsExactly_wrap db _ _ _ rfl hon
        · simp [LPush, h, hexp, hd] at _hok
  · intro hon n _hok
    rcases h : db.data key with _ | val
    · simp only [RPush, h]
      exact logsExactly_wrap db _ _ _ rfl hon
    · by_cases hexp : expired now val = true
      · simp only [RPush, h, hexp, if_true]
        exact logsExactly_wrap db _ _ _ rfl hon
      · rcases hd : val.data with s2 | xs | m
        · simp [RPush, h, hexp, hd] at _hok
        · simp only [RPush, h]
          rw [if_neg hexp]
          simp only [hd]
          exact logsExactly_wrap db _ _ _ rfl hon
        · simp [RPush, h, hexp, hd] at _hok
  · intro hon s hok
    rcases h : db.data key with _ | val
    · simp [LPop, h] at hok
    · by_cases hexp : expired now val = true
      · simp [LPop, h, hexp] at hok
      · rcases hd : val.data with s2 | xs | m
        · simp [LPop, h, hexp, hd] at hok
        · rcases xs with _ | ⟨item, rest⟩
          · simp [LPop, h, hexp, hd] at hok
          · simp only [LPop, h]
            rw [if_neg hexp]
            simp only [hd]
            exact logsExactly_wrap db _ _ _ (by split <;> rfl) hon
        · simp [LPop, h, hexp, hd] at hok
  · intro hon s hok
    rcases h : db.data key with _ | val
    · simp [RPop, h] at hok
    · by_cases hexp : expired now val = true
      · simp [RPop, h, hexp] at hok
      · rcases hd : val.data with s2 | xs | m
        · simp [RPop, h, hexp, hd] at hok
        · by_cases hxs : xs.isEmpty
          · simp [RPop, h, hexp, hd, hxs] at hok
          · simp only [RPop, h]
            rw [if_neg hexp]
            simp only [hd]
            rw [if_neg hxs]
            exact logsExactly_wrap db _ _ _ (by split <;> rfl) hon
        · simp [RPop, h, hexp, hd] at hok
  · intro hon val xs hk he hd hok
    have hexp : ¬ expired now val = true := by simp [he]
    simp only [LSet, hk] at hok ⊢
    rw [if_neg hexp] at hok ⊢
    simp only [hd] at hok ⊢
    by_cases hb : (if index < 0 then ((xs.length : Int) + index) else index) < 0 ∨
        (if index < 0 then ((xs.length : Int) + index) else index) ≥ (xs.length : Int)
    · rw [if_pos hb] at hok
      simp at hok
    · rw [if_neg hb] at hok ⊢
      exact logsExactly_wrap db _ _ _ rfl hon
  · intro hon n hok hn
    rcases h : db.data key with _ | val
    · simp only [LRem, h] at hok
      exfalso
      have h0 : (0 : Nat) = n := by simpa using hok
      omega
    · by_cases hexp : expired now val = true
      · simp only [LRem, h, hexp, if_true] at hok
        exfalso
        have h0 : (0 : Nat) = n := by simpa using hok
        omega
      · rcases hd : val.data with s2 | xs | m
        · simp [LRem, h, hexp, hd] at hok
        · simp only [LRem, h] at hok ⊢
          rw [if_neg hexp] at hok ⊢
          simp only [hd] at hok ⊢
          have hr2 : (lremList count value xs).2 = n := by simpa using hok
          rw [if_pos (by omega : (lremList count value xs).2 > 0)]
          exact logsExactly_wrap db _ _ _ (by split <;> rfl) hon
        · simp [LRem, h, hexp, hd] at hok
  · intro hon val xs hk he hd
    have hexp : ¬ expired now val = true := by simp [he]
    simp only [LTrim, hk]
    rw [if_neg hexp]
    simp only [hd]
    exact logsExactly_wrap db _ _ _ (by split <;> rfl) hon
  · intro hon n _hok
    rcases h : db.data key with _ | val
    · simp only [HSet, h]
      exact logsExactly_wrap db _ _ _ rfl hon
    · by_cases hexp : expired now val = true
      · simp only [HSet, h, hexp, if_true]
        exact logsExactly_wrap db _ _ _ rfl hon
      · rcases hd : val.data with s2 | xs | m
        · simp [HSet, h, hexp, hd] at _hok
        · simp [HSet, h, hexp, hd] at _hok
        · simp only [HSet, h]
          rw [if_neg hexp]
          simp only [hd]
          exact logsExactly_wrap db _ _ _ rfl hon
  · intro hon n hok hn
    rcases h : db.data key with _ | val
    · simp only [HDel, h] at hok
      exfalso
      have h0 : (0 : Nat) = n := by simpa using hok
      omega
    · by_cases hexp : expired now val = true
      · simp only [HDel, h, hexp, if_true] at hok
        exfalso
        have h0 : (0 : Nat) = n := by simpa using hok
        omega
      · rcases hd : val.data with s2 | xs | m
        · simp [HDel, h, hexp, hd] at hok
        · simp [HDel, h, hexp, hd] at hok
        · simp only [HDel, h] at hok ⊢
          rw [if_neg hexp] at hok ⊢
          simp only [hd] at hok ⊢
          have hr2 : (hdelLoop fields m 0).2 = n := by simpa using hok
          rw [if_pos (by omega : (hdelLoop fields m 0).2 > 0)]
          exact logsExactly_wrap db _ _ _ (by split <;> rfl) hon

/-- C1 (witness): a concrete `LPUSH` on the AOF-enabled `always` store
appends its record, and the sync watermark covers it before the operation
returns. -/
theorem aof_logging_amended_witness :
    ((LPush 0 "k" ["a"] dbAof).2).aofLog =
      dbAof.aofLog ++ [formatCommand "LPUSH" ["k", "a"]] ∧
    ((LPush 0 "k" ["a"] dbAof).2).aofSynced =
      ((LPush 0 "k" ["a"] dbAof).2).aofLog.length := by
  have h := (aof_logging_amended 0 "k" "v" "f" "fv" none 0 0 0 0 0 ["a"] []
    dbAof).2.2.2.1 rfl 1 rfl
  exact ⟨h.1, h.2 rfl⟩

/-! ## Claim C2 — push order -/

/-- C2 (counterexample): `LPUSH k x y` on an empty key yields `[x, y]` — the
FIRST argument at index 0 — not the Redis order `[y, x]` the claim states. -/
theorem lpush_order_counterexample :
    LRange 0 "k" 0 (-1) (LPush 0 "k" ["x", "y"] emptyDB).2 = Except.ok ["x", "y"] ∧
    (["x", "y"] : List String) ≠ ["y", "x"] := by
  exact ⟨rfl, by decide⟩

/-- C2 (amended): after `RPUSH k x1..xn`, `LRANGE k 0 -1` is the old list with
`[x1..xn]` appended; after `LPUSH k x1..xn` it is `[x1..xn]` prepended to the
old list — the first `LPUSH` argument, not the last, ends up at index 0. -/
theorem push_order_amended (now : Int) (key : String) (values xs : List String)
    (db : DBState) (val : Value)
    (hk : db.data key = some val) (hx : val.data = VData.list xs)
    (he : expired now val = false) :
    LRange now key 0 (-1) (LPush now key values db).2 = Except.ok (values ++ xs) ∧
    LRange now key 0 (-1) (RPush now key values db).2 = Except.ok (xs ++ values) ∧
    LRange now key 0 (-1) (LPush now key values emptyDB).2 = Except.ok values ∧
    LRange now key 0 (-1) (RPush now key values emptyDB).2 = Except.ok values := by
  refine ⟨?_, ?_, ?_, ?_⟩
  · have hstate : (LPush now key values db).2.data key =
        some { val with data := VData.list (values ++ xs) } := by
      simp [LPush, hk, he, hx, listMutDone, triggerWrite_data, logCommand_data,
        storeInsert, lpushPrepend_eq_append]
    simp [LRange, hstate, expired_set_data, he, lrangeSlice_full]
  · have hstate : (RPush now key values db).2.data key =
        some { val with data := VData.list (xs ++ values) } := by
      simp [RPush, hk, he, hx, listMutDone, triggerWrite_data, logCommand_data,
        storeInsert]
    simp [LRange, hstate, expired_set_data, he, lrangeSlice_full]
  · have hstate : (LPush now key values emptyDB).2.data key =
        some { data := VData.list values, expiration := none } := by
      simp [LPush, emptyDB, listMutDone, triggerWrite_data, logCommand_data,
        storeInsert, lpushPrepend_eq_append]
    simp [LRange, hstate, expired, lrangeSlice_full]
  · have hstate : (RPush now key values emptyDB).2.data key =
        some { data := VData.list values, expiration := none } := by
      simp [RPush, emptyDB, listMutDone, triggerWrite_data, logCommand_data,
        storeInsert]
    simp [LRange, hstate, expired, lrangeSlice_full]

/-- C2 (witness): `LPUSH k x y` onto the list `["a"]` yields `["x", "y", "a"]`. -/
theorem push_order_amended_witness :
    LRange 0 "k" 0 (-1) (LPush 0 "k" ["x", "y"] dbListK).2 =
      Except.ok ["x", "y", "a"] := by
  have h := (push_order_amended 0 "k" ["x", "y"] ["a"] dbListK
    { data := VData.list ["a"], expiration := none } rfl rfl rfl).1
  simpa using h

/-! ## Claim C3 — AOF append format -/

/-- Modelled from the spec: the claimed append protocol — the command name and
each argument separated by single spaces, an argument containing a space
wrapped in double quotes around that argument's own text, and a terminating
newline. -/
def specAppendFormat (cmd : String) (args : List String) : String :=
  cmd ++ String.join (args.map (fun a =>
    " " ++ (if a.data.contains ' ' then "\"" ++ a ++ "\"" else a))) ++ "\n"

/-- C3: `LogCommand` does not write the claimed format.  On
`SET key "my value"` it emits `SETkey"SET"` — no space separators anywhere,
and the quoted token is the command name instead of the argument — where the
claim requires `SET key "my value"`. -/
theorem logCommand_format_bug :
    formatCommand "SET" ["key", "my value"] = "SETkey\"SET\"\n" ∧
    specAppendFormat "SET" ["key", "my value"] = "SET key \"my value\"\n" ∧
    formatCommand "SET" ["key", "my value"] ≠
      specAppendFormat "SET" ["key", "my value"] := by
  refine ⟨rfl, rfl, ?_⟩
  decide

/-! ## Claim C4 — RESP encode/decode round trip -/

/-- C4: the round trip fails.  `Marshal` writes the `+` tag for both Error and
Integer values (the canonical tags `-` and `:` are never produced), so parsing
the output yields a Simple String instead of the original value; and a
non-null Array is marshalled as its `*<len>` header alone — the elements are
dropped, so parsing the output fails looking for them. -/
theorem marshal_parse_roundtrip_bug :
    Resp.Marshal (Resp.RValue.error "x") = "+x\r\n" ∧
    Resp.Parse 9 (Resp.Marshal (Resp.RValue.error "x")).data =
      Except.ok (Resp.RValue.simpleString "x", []) ∧
    Resp.Marshal (Resp.RValue.integer 7) = "+7\r\n" ∧
    Resp.Parse 9 (Resp.Marshal (Resp.RValue.integer 7)).data =
      Except.ok (Resp.RValue.simpleString "7", []) ∧
    Resp.Marshal (Resp.RValue.array [Resp.RValue.bulkString "a"]) = "*1\r\n" ∧
    Resp.Parse 9 (Resp.Marshal (Resp.RValue.array [Resp.RValue.bulkString "a"])).data =
      Except.error Resp.ParseErr.eof := by
  exact ⟨rfl, rfl, rfl, rfl, rfl, rfl⟩

/-! ## Claim C5 — visibility of expired entries -/

/-- C5 (counterexample): `TTL` performs no expiration check.  On a key whose
expiration instant `5` lies in the past at time `10` it returns the negative
remainder `-5` instead of the not-found signal the claim requires, exposing
metadata of the expired entry. -/
theorem ttl_expired_counterexample :
    TTL 10 "k" dbExpired = Except.ok (-5) ∧
    TTL 10 "k" dbExpired ≠ Except.error "key not found" := by
  refine ⟨rfl, fun hcontra => ?_⟩
  have h2 : (Except.ok (-5) : Except String Int) = Except.error "key not found" := by
    rw [← hcontra]
    rfl
  exact Except.noConfusion h2

/-- C5 (amended): `get`, `all`, the list reads (`lrange`, `llen`, `lindex`)
and the hash reads (`hget`, `hgetall`, `hexists`, `hlen`, `hkeys`, `hvals`)
all treat a key with a past expiration as absent, but `ttl` does not: it
returns the (negative) remaining duration of the expired entry with no
error. -/
theorem expired_reads_amended (now t : Int) (key field : String) (i start stop : Int)
    (db : DBState) (val : Value)
    (hk : db.data key = some val) (he : val.expiration = some t) (ht : t < now) :
    Get now key db = Except.error "key not found" ∧
    All now db key = none ∧
    LRange now key start stop db = Except.ok [] ∧
    LLen now key db = Except.ok 0 ∧
    LIndex now key i db = Except.error "key not found" ∧
    HGet now key field db = Except.error "key not found" ∧
    HGetAll now key db = Except.ok [] ∧
    HExists now key field db = Except.ok false ∧
    HLen now key db = Except.ok 0 ∧
    HKeys now key db = Except.ok [] ∧
    HVals now key db = Except.ok [] ∧
    TTL now key db = Except.ok (t - now) := by
  have hexp : expired now val = true := by
    simp [expired, he]
    omega
  refine ⟨?_, ?_, ?_, ?_, ?_, ?_, ?_, ?_, ?_, ?_, ?_, ?_⟩
  · simp [Get, hk, hexp]
  · simp [All, hk, hexp]
  · simp [LRange, hk, hexp]
  · simp [LLen, hk, hexp]
  · simp [LIndex, hk, hexp]
  · simp [HGet, hk, hexp]
  · simp [HGetAll, hk, hexp]
  · simp [HExists, hk, hexp]
  · simp [HLen, hk, hexp]
  · simp [HKeys, hk, hexp]
  · simp [HVals, hk, hexp]
  · simp [TTL, hk, he]

/-- C5 (witness): the amended statement at the concrete expired store. -/
theorem expired_reads_amended_witness :
    Get 10 "k" dbExpired = Except.error "key not found" ∧
    All 10 dbExpired "k" = none := by
  have h := expired_reads_amended 10 5 "k" "f" 0 0 (-1) dbExpired
    { data := VData.str "v", expiration := some 5 } rfl rfl (by omega)
  exact ⟨h.1, h.2.1⟩

/-! ## Claim C8 — RESP GET on a missing key -/

/-- C8 (counterexample): the RESP `GET` handler on an absent key replies with
a RESP Error carrying the store's message, not with the null bulk string the
claim requires. -/
theorem get_missing_counterexample :
    getCommand 0 emptyDB [Resp.RValue.bulkString "k"] =
      Resp.RValue.error "key not found" ∧
    getCommand 0 emptyDB [Resp.RValue.bulkString "k"] ≠
      Resp.RValue.nullBulkString := by
  refine ⟨rfl, fun hcontra => ?_⟩
  have h2 : Resp.RValue.error "key not found" = Resp.RValue.nullBulkString := hcontra
  exact Resp.RValue.noConfusion h2

/-- C8 (amended): whenever `Get` fails — the key is absent or expired — the
handler returns `resp.NewError` of that message (never a null bulk). -/
theorem get_error_reply_amended (now : Int) (db : DBState) (key e : String)
    (h : Get now key db = Except.error e) :
    getCommand now db [Resp.RValue.bulkString key] = Resp.RValue.error e ∧
    getCommand now db [Resp.RValue.bulkString key] ≠ Resp.RValue.nullBulkString := by
  have h1 : getCommand now db [Resp.RValue.bulkString key] = Resp.RValue.error e := by
    simp [getCommand, rvStr, h]
  refine ⟨h1, fun hcontra => ?_⟩
  rw [h1] at hcontra
  exact Resp.RValue.noConfusion hcontra

/-- C8 (witness): the amended statement on the concrete expired store (the
key is present but expired, and the reply is still the error, not null
bulk). -/
theorem get_error_reply_amended_witness :
    getCommand 10 dbExpired [Resp.RValue.bulkString "k"] =
      Resp.RValue.error "key not found" :=
  (get_error_reply_amended 10 dbExpired "k" "key not found" rfl).1

/-! ## Claim C9 — Expire resurrects an expired-but-present key -/

/-- C9: `Expire` does not check expiration.  On a key still present in the map
whose expiration has passed (`Get` already reports not-found), `Expire`
returns OK, installs `now + d` as the new expiration, and a subsequent `Get`
returns the old value again. -/
theorem expire_resurrects_expired_key (now t d : Int) (key : String)
    (db : DBState) (val : Value)
    (hk : db.data key = some val) (he : val.expiration = some t) (ht : t < now)
    (hd : 0 ≤ d) :
    Get now key db = Except.error "key not found" ∧
    (Expire now key d db).1 = Except.ok () ∧
    Get now key (Expire now key d db).2 = Except.ok val.data := by
  have hexp : expired now val = true := by
    simp [expired, he]
    omega
  refine ⟨by simp [Get, hk, hexp], by simp [Expire, hk], ?_⟩
  have hstate : (Expire now key d db).2.data key =
      some { val with expiration := some (now + d) } := by
    simp [Expire, hk, triggerWrite_data, storeInsert]
  have hfresh : expired now { val with expiration := some (now + d) } = false := by
    simp [expired]
    omega
  simp [Get, hstate, hfresh]

/-- C9 (witness): on the concrete expired store, `EXPIRE k 100` at time `10`
succeeds and `GET k` sees `"v"` again. -/
theorem expire_resurrects_expired_key_witness :
    (Expire 10 "k" 100 dbExpired).1 = Except.ok () ∧
    Get 10 "k" (Expire 10 "k" 100 dbExpired).2 =
      Except.ok (VData.str "v") := by
  have h := expire_resurrects_expired_key 10 5 100 "k" dbExpired
    { data := VData.str "v", expiration := some 5 } rfl rfl (by omega) (by omega)
  exact ⟨h.2.1, h.2.2⟩

/-! ## Claim C6 — no empty containers retained -/

/-- The key holds no empty List and no empty Hash (it may be absent or hold
anything else). -/
def noEmptyContainerAt (db : DBState) (key : String) : Prop :=
  match db.data key with
  | some v => v.data ≠ VData.list [] ∧ v.data ≠ VData.hash []
  | none => True

theorem noEmpty_delete (key : String) (db : DBState) :
    noEmptyContainerAt (storeDelete key db) key := by
  unfold noEmptyContainerAt
  rw [storeDelete_data_self]
  exact trivial

theorem noEmpty_insert (key : String) (v : Value) (db : DBState)
    (h1 : v.data ≠ VData.list []) (h2 : v.data ≠ VData.hash []) :
    noEmptyContainerAt (storeInsert key v db) key := by
  unfold noEmptyContainerAt
  rw [storeInsert_data_self]
  exact ⟨h1, h2⟩

theorem noEmpty_wrap (cmd : String) (args : List String) (db2 : DBState) (key : String)
    (h : noEmptyContainerAt db2 key) :
    noEmptyContainerAt (triggerWrite (logCommand cmd args db2)) key := by
  unfold noEmptyContainerAt at h ⊢
  rw [triggerWrite_data, logCommand_data]
  exact h

theorem clampBounds_fst_nonneg (len start stop : Int) :
    0 ≤ (clampBounds len start stop).1 := by
  unfold clampBounds
  dsimp only
  split <;> omega

theorem trimSlice_ne_nil (xs : List String) (a b : Int)
    (h0 : 0 ≤ a) (hle : a ≤ b) (hlt : a < (xs.length : Int)) :
    (xs.drop a.toNat).take (b - a + 1).toNat ≠ [] := by
  intro hnil
  have hlen := congrArg List.length hnil
  simp only [List.length_take, List.length_drop, List.length_nil] at hlen
  omega

/-- C6: each removal operation deletes the key rather than leave an empty
List or Hash behind — starting from a state with no empty container at the
key, `LPop`, `RPop`, `LRem`, `LTrim` and `HDel` all preserve that. -/
theorem empty_container_deleted (now : Int) (key value : String)
    (count start stop : Int) (fields : List String) (db : DBState)
    (hne : noEmptyContainerAt db key) :
    noEmptyContainerAt (LPop now key db).2 key ∧
    noEmptyContainerAt (RPop now key db).2 key ∧
    noEmptyContainerAt (LRem now key count value db).2 key ∧
    noEmptyContainerAt (LTrim now key start stop db).2 key ∧
    noEmptyContainerAt (HDel now key fields db).2 key := by
  refine ⟨?_, ?_, ?_, ?_, ?_⟩
  · rcases h : db.data key with _ | val
    · simpa [LPop, h] using hne
    · by_cases hexp : expired now val = true
      · simp only [LPop, h, hexp, if_true]
        exact noEmpty_delete key db
      · rcases hd : val.data with s | xs | m
        · simpa [LPop, h, hexp, hd] using hne
        · rcases xs with _ | ⟨item, rest⟩
          · simpa [LPop, h, hexp, hd] using hne
          · simp only [LPop, h]
            rw [if_neg hexp]
            simp only [hd]
            by_cases hrest : rest.isEmpty
            · rw [if_pos hrest]
              exact noEmpty_wrap _ _ _ _ (noEmpty_delete key db)
            · rw [if_neg hrest]
              have hrest' : rest ≠ [] := by simpa using hrest
              exact noEmpty_wrap _ _ _ _
                (noEmpty_insert key _ db (by simpa using hrest') (by simp))
        · simpa [LPop, h, hexp, hd] using hne
  · rcases h : db.data key with _ | val
    · simpa [RPop, h] using hne
    · by_cases hexp : expired now val = true
      · simp only [RPop, h, hexp, if_true]
        exact noEmpty_delete key db
      · rcases hd : val.data with s | xs | m
        · simpa [RPop, h, hexp, hd] using hne
        · simp only [RPop, h]
          rw [if_neg hexp]
          simp only [hd]
          by_cases hxs : xs.isEmpty
          · rw [if_pos hxs]
            exact hne
          · rw [if_neg hxs]
            by_cases hrest : xs.dropLast.isEmpty
            · rw [if_pos hrest]
              exact noEmpty_wrap _ _ _ _ (noEmpty_delete key db)
            · rw [if_neg hrest]
              have hrest' : xs.dropLast ≠ [] := by simpa using hrest
              exact noEmpty_wrap _ _ _ _
                (noEmpty_insert key _ db (by simpa using hrest') (by simp))
        · simpa [RPop, h, hexp, hd] using hne
  · rcases h : db.data key with _ | val
    · simpa [LRem, h] using hne
    · by_cases hexp : expired now val = true
      · simpa [LRem, h, hexp] using hne
      · rcases hd : val.data with s | xs | m
        · simpa [LRem, h, hexp, hd] using hne
        · simp only [LRem, h]
          rw [if_neg hexp]
          simp only [hd]
          by_cases hr2 : (lremList count value xs).2 > 0
          · rw [if_pos hr2]
            by_cases hr1 : (lremList count value xs).1.isEmpty
            · rw [if_pos hr1]
              exact noEmpty_wrap _ _ _ _ (noEmpty_delete key db)
            · rw [if_neg hr1]
              have hr1' : (lremList count value xs).1 ≠ [] := by simpa using hr1
              exact noEmpty_wrap _ _ _ _
                (noEmpty_insert key _ db (by simpa using hr1') (by simp))
          · rw [if_neg hr2]
            by_cases hr1 : (lremList count value xs).1.isEmpty
            · rw [if_pos hr1]
              exact noEmpty_delete key db
            · rw [if_neg hr1]
              have hr1' : (lremList count value xs).1 ≠ [] := by simpa using hr1
              exact noEmpty_insert key _ db (by simpa using hr1') (by simp)
        · simpa [LRem, h, hexp, hd] using hne
  · rcases h : db.data key with _ | val
    · simpa [LTrim, h] using hne
    · by_cases hexp : expired now val = true
      · simp only [LTrim, h, hexp, if_true]
        exact noEmpty_delete key db
      · rcases hd : val.data with s | xs | m
        · simpa [LTrim, h, hexp, hd] using hne
        · simp only [LTrim, h]
          rw [if_neg hexp]
          simp only [hd]
          by_cases hc : (clampBounds (xs.length : Int) start stop).1 >
              (clampBounds (xs.length : Int) start stop).2 ∨
              (clampBounds (xs.length : Int) start stop).1 ≥ (xs.length : Int)
          · rw [if_pos hc]
            exact noEmpty_wrap _ _ _ _ (noEmpty_delete key db)
          · rw [if_neg hc]
            push_neg at hc
            have hs := trimSlice_ne_nil xs (clampBounds (xs.length : Int) start stop).1
              (clampBounds (xs.length : Int) start stop).2
              (clampBounds_fst_nonneg _ _ _) (by omega) hc.2
            exact noEmpty_wrap _ _ _ _
              (noEmpty_insert key _ db (by simpa using hs) (by simp))
        · simpa [LTrim, h, hexp, hd] using hne
  · rcases h : db.data key with _ | val
    · simpa [HDel, h] using hne
    · by_cases hexp : expired now val = true
      · simpa [HDel, h, hexp] using hne
      · rcases hd : val.data with s | xs | m
        · simpa [HDel, h, hexp, hd] using hne
        · simpa [HDel, h, hexp, hd] using hne
        · simp only [HDel, h]
          rw [if_neg hexp]
          simp only [hd]
          by_cases hr2 : (hdelLoop fields m 0).2 > 0
          · rw [if_pos hr2]
            by_cases hr1 : (hdelLoop fields m 0).1.isEmpty
            · rw [if_pos hr1]
              exact noEmpty_wrap _ _ _ _ (noEmpty_delete key db)
            · rw [if_neg hr1]
              have hr1' : (hdelLoop fields m 0).1 ≠ [] := by simpa using hr1
              exact noEmpty_wrap _ _ _ _
                (noEmpty_insert key _ db (by simp) (by simpa using hr1'))
          · rw [if_neg hr2]
            by_cases hr1 : (hdelLoop fields m 0).1.isEmpty
            · rw [if_pos hr1]
              exact noEmpty_delete key db
            · rw [if_neg hr1]
              have hr1' : (hdelLoop fields m 0).1 ≠ [] := by simpa using hr1
              exact noEmpty_insert key _ db (by simp) (by simpa using hr1')

/-- C6 (witness): popping the last element of a one-element list deletes the
key. -/
theorem empty_container_deleted_witness :
    noEmptyContainerAt (LPop 0 "k" dbListK).2 "k" ∧
    (LPop 0 "k" dbListK).2.data "k" = none := by
  refine ⟨(empty_container_deleted 0 "k" "v" 0 0 0 [] dbListK ?_).1, rfl⟩
  simp [noEmptyContainerAt, dbListK]

/-! ## Claim C7 — LREM count semantics -/

/-- Modelled from the claim (reference definition for comparison): remove
every occurrence of `v`, returning the remaining list and how many were
removed. -/
def specRemoveAll (v : String) : List String → List String × Nat
  | [] => ([], 0)
  | x :: xs =>
    let r := specRemoveAll v xs
    if x = v then (r.1, r.2 + 1) else (x :: r.1, r.2)

/-- Modelled from the claim (reference definition for comparison): scanning
front to back, remove at most `k` occurrences of `v`. -/
def specRemoveFirst (v : String) : Nat → List String → List String × Nat
  | _, [] => ([], 0)
  | 0, xs => (xs, 0)
  | Nat.succ k, x :: xs =>
    if x = v then
      let r := specRemoveFirst v k xs
      (r.1, r.2 + 1)
    else
      let r := specRemoveFirst v (Nat.succ k) xs
      (x :: r.1, r.2)

theorem lremScan_unlimited (v : String) (cap : Int) (xs : List String) (r : Nat) :
    lremScan v true cap xs r =
      ((specRemoveAll v xs).1, r + (specRemoveAll v xs).2) := by
  induction xs generalizing r with
  | nil => simp [lremScan, specRemoveAll]
  | cons x xs ih =>
    simp only [lremScan]
    rw [if_pos (Or.inl trivial)]
    by_cases hx : x = v
    · rw [if_pos hx, ih]
      simp only [specRemoveAll]
      rw [if_pos hx]
      have harith : (r + 1) + (specRemoveAll v xs).2 = r + ((specRemoveAll v xs).2 + 1) := by
        omega
      rw [harith]
    · rw [if_neg hx, ih]
      simp only [specRemoveAll]
      rw [if_neg hx]

theorem lremScan_bounded (v : String) (k r : Nat) (xs : List String) :
    lremScan v false ((r + k : Nat) : Int) xs r =
      ((specRemoveFirst v k xs).1, r + (specRemoveFirst v k xs).2) := by
  induction xs generalizing k r with
  | nil => rcases k with _ | k <;> simp [lremScan, specRemoveFirst]
  | cons x xs ih =>
    rcases k with _ | k
    · simp only [lremScan]
      rw [if_neg (by push_neg; exact ⟨by simp, by omega⟩)]
      simp [specRemoveFirst]
    · simp only [lremScan]
      rw [if_pos (Or.inr (by push_cast; omega))]
      by_cases hx : x = v
      · rw [if_pos hx]
        have hcast : ((r + (k + 1) : Nat) : Int) = (((r + 1) + k : Nat) : Int) := by
          push_cast
          omega
        rw [hcast, ih k (r + 1)]
        simp only [specRemoveFirst]
        rw [if_pos hx]
        have harith : (r + 1) + (specRemoveFirst v k xs).2 =
            r + ((specRemoveFirst v k xs).2 + 1) := by
          omega
        rw [harith]
      · rw [if_neg hx]
        rw [ih (k + 1) r]
        simp only [specRemoveFirst]
        rw [if_neg hx]

/-- C7: the `LRem` loop realises the claimed count semantics — `count = 0`
removes all matches; `count > 0` removes at most `count` matches scanning
head to tail; `count < 0` removes at most `|count|` matches scanning tail to
head (= the head scan of the reversed list); the store-level `LRem` returns
the number removed and leaves the scanned list, and the claim's own example
`RPUSH k a b a c a; LREM k -2 a` removes 2 and leaves `[a, b, c]`. -/
theorem lrem_count_semantics (xs : List String) (v : String) (count : Int) :
    (count = 0 → lremList count v xs = specRemoveAll v xs) ∧
    (0 < count → lremList count v xs = specRemoveFirst v count.toNat xs) ∧
    (count < 0 → lremList count v xs =
      ((specRemoveFirst v (-count).toNat xs.reverse).1.reverse,
        (specRemoveFirst v (-count).toNat xs.reverse).2)) ∧
    (∀ now key db val, db.data key = some val → expired now val = false →
      val.data = VData.list xs →
      (LRem now key count v db).1 = Except.ok (lremList count v xs).2 ∧
      LRange now key 0 (-1) (LRem now key count v db).2 =
        Except.ok (lremList count v xs).1) ∧
    (LRem 0 "k" (-2) "a" (RPush 0 "k" ["a", "b", "a", "c", "a"] emptyDB).2).1 =
      Except.ok 2 ∧
    LRange 0 "k" 0 (-1)
        (LRem 0 "k" (-2) "a" (RPush 0 "k" ["a", "b", "a", "c", "a"] emptyDB).2).2 =
      Except.ok ["a", "b", "c"] := by
  refine ⟨?_, ?_, ?_, ?_, rfl, rfl⟩
  · intro h0
    subst h0
    unfold lremList
    rw [if_pos (by omega)]
    show lremScan v true 0 xs 0 = specRemoveAll v xs
    rw [lremScan_unlimited]
    simp
  · intro hpos
    unfold lremList
    rw [if_pos (by omega)]
    rw [decide_eq_false (by omega : ¬ count = 0)]
    have hcast : count = ((0 + count.toNat : Nat) : Int) := by omega
    conv_lhs => rw [hcast]
    rw [lremScan_bounded]
    simp
  · intro hneg
    unfold lremList
    rw [if_neg (by omega)]
    have hcast : -count = ((0 + (-count).toNat : Nat) : Int) := by omega
    conv_lhs => rw [hcast]
    rw [lremScan_bounded]
    simp
  · intro now key db val hk he hd
    have hexp : ¬ expired now val = true := by simp [he]
    constructor
    · simp only [LRem, hk]
      rw [if_neg hexp]
      simp only [hd]
    · simp only [LRem, hk]
      rw [if_neg hexp]
      simp only [hd]
      by_cases hr1 : (lremList count v xs).1.isEmpty
      · have hr1' : (lremList count v xs).1 = [] := by simpa using hr1
        by_cases hr2 : (lremList count v xs).2 > 0
        · rw [if_pos hr1, if_pos hr2]
          have hlook : (triggerWrite (logCommand "LREM" [key, toString count, v]
              (storeDelete key db))).data key = none := by
            rw [triggerWrite_data, logCommand_data, storeDelete_data_self]
          simp [LRange, hlook, hr1']
        · rw [if_pos hr1, if_neg hr2]
          simp [LRange, storeDelete_data_self, hr1']
      · by_cases hr2 : (lremList count v xs).2 > 0
        · rw [if_neg hr1, if_pos hr2]
          have hlook : (triggerWrite (logCommand "LREM" [key, toString count, v]
              (storeInsert key { val with data := VData.list (lremList count v xs).1 } db))).data key =
              some { val with data := VData.list (lremList count v xs).1 } := by
            rw [triggerWrite_data, logCommand_data, storeInsert_data_self]
          simp [LRange, hlook, expired_set_data, he, lrangeSlice_full]
        · rw [if_neg hr1, if_neg hr2]
          simp [LRange, storeInsert_data_self, expired_set_data, he, lrangeSlice_full]

/-- C7 (witness): the tail-to-head case of the semantics at the concrete
input of the claim's example. -/
theorem lrem_count_semantics_witness :
    lremList (-2) "a" ["a", "b", "a", "c", "a"] =
      ((specRemoveFirst "a" 2 (["a", "b", "a", "c", "a"] : List String).reverse).1.reverse,
        (specRemoveFirst "a" 2 (["a", "b", "a", "c", "a"] : List String).reverse).2) :=
  (lrem_count_semantics ["a", "b", "a", "c", "a"] "a" (-2)).2.2.1 (by omega)

/-! ## Claim C10 — the AOF replay tokenizer -/

theorem tokStep_inQuotes (st : TokState) (c : Char) :
    (tokStep st c).inQuotes = if c = '"' then !st.inQuotes else st.inQuotes := by
  unfold tokStep
  by_cases h1 : c = '"'
  · rw [if_pos h1, if_pos h1]
  · rw [if_neg h1, if_neg h1]
    by_cases h2 : (c = ' ' ∧ !st.inQuotes)
    · rw [if_pos h2]
      by_cases h3 : st.current.isEmpty
      · rw [if_pos h3]
      · rw [if_neg h3]
    · rw [if_neg h2]

theorem foldl_tokStep_inQuotes (cs : List Char) (st : TokState) :
    (cs.foldl tokStep st).inQuotes =
      (st.inQuotes != decide (cs.count '"' % 2 = 1)) := by
  induction cs generalizing st with
  | nil => simp
  | cons c cs ih =>
    rw [List.foldl_cons, ih, tokStep_inQuotes]
    by_cases hc : c = '"'
    · rw [if_pos hc]
      have hcount : (c :: cs).count '"' = cs.count '"' + 1 := by
        simp [List.count_cons, hc]
      rw [hcount]
      rcases Nat.mod_two_eq_zero_or_one (cs.count '"') with h2 | h2
      · have h3 : (cs.count '"' + 1) % 2 = 1 := by omega
        simp only [h2, h3]
        norm_num
      · have h3 : ¬ ((cs.count '"' + 1) % 2 = 1) := by omega
        simp only [h2, decide_eq_false h3]
        norm_num
    · rw [if_neg hc]
      have hcount : (c :: cs).count '"' = cs.count '"' := by
        simp [List.count_cons, hc]
      rw [hcount]

theorem foldl_tokStep_clean (cs : List Char) (st : TokState)
    (hp : ∀ t ∈ st.parts, t ≠ "" ∧ '"' ∉ t.data) (hc : '"' ∉ st.current) :
    (∀ t ∈ (cs.foldl tokStep st).parts, t ≠ "" ∧ '"' ∉ t.data) ∧
      '"' ∉ (cs.foldl tokStep st).current := by
  induction cs generalizing st with
  | nil => exact ⟨hp, hc⟩
  | cons c cs ih =>
    rw [List.foldl_cons]
    apply ih
    · unfold tokStep
      by_cases h1 : c = '"'
      · rw [if_pos h1]
        exact hp
      · rw [if_neg h1]
        by_cases h2 : (c = ' ' ∧ !st.inQuotes)
        · rw [if_pos h2]
          by_cases h3 : st.current.isEmpty
          · rw [if_pos h3]
            exact hp
          · rw [if_neg h3]
            intro t ht
            rcases List.mem_append.mp ht with h | h
            · exact hp t h
            · have heq : t = String.mk st.current := by simpa using h
              subst heq
              refine ⟨fun hmk => ?_, by simpa using hc⟩
              have hnil : st.current = [] := congrArg String.data hmk
              exact h3 (by simp [hnil])
        · rw [if_neg h2]
          exact hp
    · unfold tokStep
      by_cases h1 : c = '"'
      · rw [if_pos h1]
        exact hc
      · rw [if_neg h1]
        by_cases h2 : (c = ' ' ∧ !st.inQuotes)
        · rw [if_pos h2]
          by_cases h3 : st.current.isEmpty
          · rw [if_pos h3]
            exact hc
          · rw [if_neg h3]
            simp
        · rw [if_neg h2]
          intro hmem
          rcases List.mem_append.mp hmem with h | h
          · exact hc h
          · have hcq : '"' = c := by simpa using h
            exact h1 hcq.symm

/-- Modelled from the claim: split the line at the spaces that lie outside
double quotes (a quote character toggles the in-quotes state and stays in its
field); returns the first field and the remaining fields. -/
def splitOutside (inq : Bool) : List Char → List Char × List (List Char)
  | [] => ([], [])
  | c :: cs =>
    if c = ' ' ∧ !inq then
      let r := splitOutside inq cs
      ([], r.1 :: r.2)
    else
      let r := splitOutside (if c = '"' then !inq else inq) cs
      (c :: r.1, r.2)

/-- Modelled from the claim: a raw field with its quote characters removed. -/
def cleanField (f : List Char) : String :=
  String.mk (f.filter (fun c => !(c = '"')))

/-- Modelled from the claim: the tokens of a line — split on the spaces that
are outside quotes, remove the quote characters, drop the empty tokens. -/
def specTokens (line : String) : List String :=
  (((splitOutside false line.data).1 :: (splitOutside false line.data).2).map
    cleanField).filter (fun t => !t.data.isEmpty)

theorem stringMk_eq_empty_iff (cs : List Char) : String.mk cs = "" ↔ cs = [] := by
  constructor
  · intro h
    exact congrArg String.data h
  · intro h
    rw [h]

theorem cleanField_of_no_quote (f : List Char) (h : '"' ∉ f) :
    cleanField f = String.mk f := by
  unfold cleanField
  congr 1
  apply List.filter_eq_self.mpr
  intro c hmem
  have hcq : c ≠ '"' := fun hq => h (hq ▸ hmem)
  simp [hcq]

theorem cleanField_mid_quote (a b : List Char) :
    cleanField (a ++ '"' :: b) = cleanField (a ++ b) := by
  unfold cleanField
  congr 1
  rw [List.filter_append, List.filter_append, List.filter_cons]
  simp

/-- Running the tokenizer loop from any quote-clean state produces exactly
the claim's tokens: the out-of-quote-space fields (the first one extended by
the pending partial token), each with its quotes removed, the empty ones
dropped. -/
theorem foldl_tokStep_tokens (cs : List Char) (st : TokState) (hc : '"' ∉ st.current) :
    (if (cs.foldl tokStep st).current.isEmpty then (cs.foldl tokStep st).parts
      else (cs.foldl tokStep st).parts ++ [String.mk (cs.foldl tokStep st).current]) =
    st.parts ++
      (((st.current ++ (splitOutside st.inQuotes cs).1) ::
          (splitOutside st.inQuotes cs).2).map cleanField).filter
        (fun t => !t.data.isEmpty) := by
  induction cs generalizing st with
  | nil =>
    simp only [List.foldl_nil, splitOutside]
    by_cases hcur : st.current.isEmpty
    · rw [if_pos hcur]
      have hnil : st.current = [] := by simpa using hcur
      simp [hnil, cleanField]
    · rw [if_neg hcur]
      have hcur2 : st.current.isEmpty = false := by simpa using hcur
      simp [cleanField_of_no_quote st.current hc, hcur2]
  | cons c cs ih =>
    rw [List.foldl_cons]
    by_cases h1 : c = '"'
    · subst h1
      have hstep : tokStep st '"' = { st with inQuotes := !st.inQuotes } := by
        unfold tokStep
        rw [if_pos rfl]
      rw [hstep, ih { st with inQuotes := !st.inQuotes } hc]
      simp only [splitOutside]
      rw [if_neg (by simp)]
      simp [cleanField_mid_quote]
    · by_cases h2 : (c = ' ' ∧ !st.inQuotes)
      · by_cases h3 : st.current.isEmpty
        · have hstep : tokStep st c = st := by
            unfold tokStep
            rw [if_neg h1, if_pos h2, if_pos h3]
          rw [hstep, ih st hc]
          simp only [splitOutside]
          rw [if_pos h2]
          have hnil : st.current = [] := by simpa using h3
          simp [hnil, cleanField]
        · have hstep : tokStep st c =
              { parts := st.parts ++ [String.mk st.current], current := [],
                inQuotes := st.inQuotes } := by
            unfold tokStep
            rw [if_neg h1, if_pos h2, if_neg h3]
          rw [hstep, ih _ (by simp)]
          simp only [splitOutside]
          rw [if_pos h2]
          have hcur2 : st.current.isEmpty = false := by simpa using h3
          simp [cleanField_of_no_quote st.current hc, hcur2]
      · have hstep : tokStep st c = { st with current := st.current ++ [c] } := by
          unfold tokStep
          rw [if_neg h1, if_neg h2]
        have hc2 : '"' ∉ st.current ++ [c] := by
          intro hm
          rcases List.mem_append.mp hm with hm | hm
          · exact hc hm
          · have hq : '"' = c := by simpa using hm
            exact h1 hq.symm
        rw [hstep, ih _ hc2]
        simp only [splitOutside]
        rw [if_neg h2, if_neg h1]
        simp [List.append_assoc]

/-- C10: `parseCommandLine` fails (with its unique error) exactly when the
line contains an odd number of double quotes; otherwise it returns exactly
the claim's tokens — the line split on the spaces outside quotes, quote
characters removed, empty tokens dropped (`specTokens`); consequently no
returned token is empty or contains a quote; and a concrete line shows the
splitting, the collapse of space runs, the literal in-quote space, and the
vanishing quoted empty string. -/
theorem parseCommandLine_spec (line : String) :
    (parseCommandLine line = Except.error "unclosed quotes in command" ↔
      line.data.count '"' % 2 = 1) ∧
    (line.data.count '"' % 2 = 0 →
      parseCommandLine line = Except.ok (specTokens line)) ∧
    (∀ parts, parseCommandLine line = Except.ok parts →
      ∀ t ∈ parts, t ≠ "" ∧ '"' ∉ t.data) ∧
    parseCommandLine "a  b \"c d\" \"\" e" = Except.ok ["a", "b", "c d", "e"] := by
  refine ⟨?_, ?_, ?_, rfl⟩
  · have hpar := foldl_tokStep_inQuotes line.data
      { parts := [], current := [], inQuotes := false }
    simp only [parseCommandLine]
    rcases Nat.mod_two_eq_zero_or_one (line.data.count '"') with h2 | h2
    · rw [h2] at hpar
      norm_num at hpar
      rw [if_neg (by simp [hpar])]
      simp [h2]
    · rw [h2] at hpar
      norm_num at hpar
      rw [if_pos hpar]
      simp [h2]
  · intro h0
    have hpar := foldl_tokStep_inQuotes line.data
      { parts := [], current := [], inQuotes := false }
    rw [h0] at hpar
    norm_num at hpar
    simp only [parseCommandLine]
    rw [if_neg (by simp [hpar])]
    have htok := foldl_tokStep_tokens line.data
      { parts := [], current := [], inQuotes := false } (by simp)
    rw [htok]
    simp [specTokens]
  · intro parts hok t ht
    have hclean := foldl_tokStep_clean line.data
      { parts := [], current := [], inQuotes := false } (by simp) (by simp)
    simp only [parseCommandLine] at hok
    by_cases hq : (line.data.foldl tokStep
        { parts := [], current := [], inQuotes := false }).inQuotes
    · rw [if_pos hq] at hok
      exact absurd hok (by simp)
    · rw [if_neg hq] at hok
      by_cases hcur : (line.data.foldl tokStep
          { parts := [], current := [], inQuotes := false }).current.isEmpty
      · rw [if_pos hcur] at hok
        obtain rfl := Except.ok.inj hok
        exact hclean.1 t ht
      · rw [if_neg hcur] at hok
        obtain rfl := Except.ok.inj hok
        rcases List.mem_append.mp ht with h | h
        · exact hclean.1 t h
        · have heq : t = String.mk (line.data.foldl tokStep
              { parts := [], current := [], inQuotes := false }).current := by
            simpa using h
          subst heq
          refine ⟨fun hmk => ?_, by simpa using hclean.2⟩
          have hnil : (line.data.foldl tokStep
              { parts := [], current := [], inQuotes := false }).current = [] :=
            congrArg String.data hmk
          exact hcur (by simp [hnil])

/-- C10 (witness): the success clauses of the specification applied at the
concrete line `SET k v`. -/
theorem parseCommandLine_spec_witness :
    parseCommandLine "SET k v" = Except.ok (specTokens "SET k v") ∧
    (("SET" : String) ≠ "" ∧ '"' ∉ ("SET" : String).data) :=
  ⟨(parseCommandLine_spec "SET k v").2.1 rfl,
    (parseCommandLine_spec "SET k v").2.2.1 ["SET", "k", "v"] rfl "SET" (by simp)⟩

end FlexDB
